import Mathlib

/-!
Verification of the planar truss solver (method of joints).

The development shallowly embeds the notebook's data model and algorithms:
nodal coordinates, member connectivity, the per-node incident-member array
`joints` (built exactly as in the source, with `max_valence = 6` and `-1`
sentinels), the equilibrium matrix `A` and right-hand side `b`, the
determinacy check, the linear solve and the result classifier.  Coordinates
and forces live in an arbitrary field `K` (the Python code uses floats; all
statements here are exact).  Parts of the notebook are left as
`## Your code here ##` placeholders; those parts are modelled from the spec,
as noted on each definition.
-/

namespace TrussSolver

/-- A truss: nodal coordinates, member connectivity (pairs of node indices),
the fixed-support node, the roller-support node, and the external loads
(node index together with the force vector components). -/
structure Truss (K : Type) where
  nodes : List (K × K)
  members : List (ℕ × ℕ)
  BC_fixed : ℕ
  BC_roller : ℕ
  loads : List (ℕ × K × K)

variable {K : Type}

/-- Number of nodes (pin joints). -/
def n_nodes (t : Truss K) : ℕ := t.nodes.length

/-- Number of truss members. -/
def n_members (t : Truss K) : ℕ := t.members.length

/-- Validity of the geometry / boundary data: member endpoints are in-range
and distinct, the two support nodes are in-range and distinct, and every
load references an in-range node. -/
def ValidTruss (t : Truss K) : Prop :=
  (∀ ab ∈ t.members, ab.1 < n_nodes t ∧ ab.2 < n_nodes t ∧ ab.1 ≠ ab.2) ∧
  t.BC_fixed < n_nodes t ∧ t.BC_roller < n_nodes t ∧ t.BC_fixed ≠ t.BC_roller ∧
  (∀ l ∈ t.loads, l.1 < n_nodes t)

/-- The source's hard-coded cap on the number of members concurrent at a
single node (`max_valence = 6`). -/
def max_valence : ℕ := 6

/-- One scan of a `joints` row, as in the source: find the first `-1`
entry, overwrite it with `v`, and stop (`break`).  When the row holds no
`-1` the row is returned unchanged — the member index is silently dropped. -/
def insertFree : List ℤ → ℤ → List ℤ
  | [], _ => []
  | x :: xs, v => if x = -1 then v :: xs else x :: insertFree xs v

/-- The member loop of the source's `joints` construction: member `i` with
endpoints `ab` is recorded first in the row of its first endpoint, then in
the row of its second endpoint. -/
def buildJointsGo : ℕ → List (ℕ × ℕ) → List (List ℤ) → List (List ℤ)
  | _, [], J => J
  | i, ab :: rest, J =>
    let J1 := J.set ab.1 (insertFree (J.getD ab.1 []) (Int.ofNat i))
    let J2 := J1.set ab.2 (insertFree (J1.getD ab.2 []) (Int.ofNat i))
    buildJointsGo (i + 1) rest J2

/-- The source's `joints` array: for each node, the members concurrent at
that node, stored in a fixed-width (`max_valence`) row initialised to `-1`. -/
def joints (t : Truss K) : List (List ℤ) :=
  buildJointsGo 0 t.members (List.replicate (n_nodes t) (List.replicate max_valence (-1)))

/-- Row `i` of the `joints` array. -/
def jointsRow (t : Truss K) (i : ℕ) : List ℤ := (joints t).getD i []

/-- The endpoints of member `m` (defaulting to `(0, 0)` out of range). -/
def memberNodes (t : Truss K) (m : ℕ) : ℕ × ℕ := t.members.getD m (0, 0)

/-- Member `m` is incident to node `i`. -/
def Incident (t : Truss K) (m i : ℕ) : Prop :=
  (memberNodes t m).1 = i ∨ (memberNodes t m).2 = i

instance decIncident (t : Truss K) (m i : ℕ) : Decidable (Incident t m i) :=
  decidable_of_iff ((memberNodes t m).1 = i ∨ (memberNodes t m).2 = i) Iff.rfl

/-- Boolean incidence test at the level of a raw member list. -/
def memberIncB (ms : List (ℕ × ℕ)) (i m : ℕ) : Bool :=
  ((ms.getD m (0, 0)).1 == i) || ((ms.getD m (0, 0)).2 == i)

/-- The indices of the members of `ms` incident to node `i`, in increasing
member-index order. -/
def incL (ms : List (ℕ × ℕ)) (i : ℕ) : List ℕ :=
  (List.range ms.length).filter (memberIncB ms i)

/-- The members incident to node `i`, in increasing member-index order. -/
def incidentMembers (t : Truss K) (i : ℕ) : List ℕ := incL t.members i

/-- Every node has at most `max_valence` incident members — the regime in
which the source's fixed-width `joints` rows lose no member. -/
def ValenceOK (t : Truss K) : Prop :=
  ∀ i < n_nodes t, (incidentMembers t i).length ≤ max_valence

instance decValidTruss (t : Truss K) : Decidable (ValidTruss t) :=
  decidable_of_iff
    ((∀ ab ∈ t.members, ab.1 < n_nodes t ∧ ab.2 < n_nodes t ∧ ab.1 ≠ ab.2) ∧
      t.BC_fixed < n_nodes t ∧ t.BC_roller < n_nodes t ∧ t.BC_fixed ≠ t.BC_roller ∧
      (∀ l ∈ t.loads, l.1 < n_nodes t)) Iff.rfl

instance decValenceOK (t : Truss K) : Decidable (ValenceOK t) :=
  decidable_of_iff (∀ i < n_nodes t, (incidentMembers t i).length ≤ max_valence) Iff.rfl

/-- Pointwise update of a matrix represented as a function. -/
def mset (M : ℕ → ℕ → K) (r c : ℕ) (v : K) : ℕ → ℕ → K :=
  fun r0 c0 => if r0 = r ∧ c0 = c then v else M r0 c0

section FieldDefs

variable [Field K]

/-- Modelled from the spec: the unnormalised direction vector of member `m`
as seen from node `i`, `otherEnd - thisEnd` (the source's per-member entry
computation is a placeholder).  Dividing by the member length gives the
unit vector `u` of the spec. -/
def memberDir (t : Truss K) (m i : ℕ) : K × K :=
  let ab := memberNodes t m
  let other := if i = ab.1 then ab.2 else ab.1
  let pO := t.nodes.getD other (0, 0)
  let pI := t.nodes.getD i (0, 0)
  (pO.1 - pI.1, pO.2 - pI.2)

/-- The member part of one iteration of the source's joint loop: for each
member index in the scanned row, write the x/y components of its unit
vector (modelled from the spec, the source's values being placeholders)
into rows `2i` and `2i+1` of the column of that member. -/
def fillMembers (t : Truss K) (len : ℕ → K) (i : ℕ) (A : ℕ → ℕ → K) (L : List ℤ) :
    ℕ → ℕ → K :=
  L.foldl (fun B mz =>
    let m := mz.toNat
    mset (mset B (2 * i) m ((memberDir t m i).1 / len m))
      (2 * i + 1) m ((memberDir t m i).2 / len m)) A

/-- One iteration of the source's joint loop filling matrix `A`: scan the
`joints` row of node `i` until the first negative sentinel (the source's
`break`), writing the x/y components of each member's unit vector into rows
`2i` and `2i+1`; then, modelled from the spec (the written values are
placeholders in the source), the reaction columns: `A[2i, n_members] = 1`
and `A[2i+1, n_members+1] = 1` at the fixed support, and
`A[2i+1, n_members+2] = 1` at the roller support. -/
def assembleNode (t : Truss K) (len : ℕ → K) (A : ℕ → ℕ → K) (i : ℕ) : ℕ → ℕ → K :=
  let scan := (jointsRow t i).takeWhile (fun v => decide (0 ≤ v))
  let A1 := fillMembers t len i A scan
  let A2 :=
    if i = t.BC_fixed then
      mset (mset A1 (2 * i) (n_members t) 1) (2 * i + 1) (n_members t + 1) 1
    else A1
  if i = t.BC_roller then mset A2 (2 * i + 1) (n_members t + 2) 1 else A2

/-- The equilibrium coefficient matrix `A` of the source, of shape
`(2*n_nodes) × (n_members + 3)`, built by looping over the joints.  The
member lengths are supplied by `len` (the Python code computes them with a
square root; here they are a parameter constrained in the theorems). -/
def assembleA (t : Truss K) (len : ℕ → K) : ℕ → ℕ → K :=
  (List.range (n_nodes t)).foldl (assembleNode t len) (fun _ _ => 0)

/-- Number of rows of the assembled system. -/
def aRows (t : Truss K) : ℕ := 2 * n_nodes t

/-- Number of columns of the assembled system, which is also the length of
the unknown vector: one unknown per member followed by
`[FixedRx, FixedRy, RollerRy]`. -/
def aCols (t : Truss K) : ℕ := n_members t + 3

/-- Add `v` to entry `r` of a vector represented as a function. -/
def addAt (b : ℕ → K) (r : ℕ) (v : K) : ℕ → K :=
  fun r0 => if r0 = r then b r0 + v else b r0

/-- Modelled from the spec: the right-hand side `b` (the source initialises
it with zeros and leaves the load loop body as a placeholder; the spec
says each load contributes the negative of its components, summed at the
target node). -/
def assembleb (t : Truss K) : ℕ → K :=
  t.loads.foldl (fun bb l => addAt (addAt bb (2 * l.1) (-l.2.1)) (2 * l.1 + 1) (-l.2.2))
    (fun _ => 0)

end FieldDefs

/-- Outcome of the static determinacy check. -/
inductive Determinacy
  | Determinate
  | OverConstrained
  | UnderConstrained
deriving DecidableEq

/-- Modelled from the spec: the source's `condition` expression is a
placeholder; the spec compares `2*nodeCount` with `memberCount + 3`:
equality is Determinate, more equations than unknowns is UnderConstrained,
fewer is OverConstrained. -/
def checkDeterminacy (nodeCount memberCount : ℕ) : Determinacy :=
  if 2 * nodeCount = memberCount + 3 then .Determinate
  else if memberCount + 3 < 2 * nodeCount then .UnderConstrained
  else .OverConstrained

/-- The error taxonomy of the spec. -/
inductive TrussError
  | invalidGeometry
  | degenerateMember
  | structuralOver
  | structuralUnder
  | singularSystem
  | dimensionMismatch
deriving DecidableEq

/-- Modelled from the spec: the linear solve (`np.linalg.solve` in the
source, an external library call).  A non-square system is rejected with
`dimensionMismatch`; a singular square system with `singularSystem`;
otherwise the unique solution is returned (here by Cramer's rule, exact
arithmetic standing in for the library's LU solve). -/
def solve [Field K] [DecidableEq K] (r c : ℕ) (A : Matrix (Fin r) (Fin c) K)
    (b : Fin r → K) : Except TrussError (Fin c → K) :=
  if h : r = c then
    let A2 : Matrix (Fin c) (Fin c) K := fun i j => A (Fin.cast h.symm i) j
    let b2 : Fin c → K := fun i => b (Fin.cast h.symm i)
    if A2.det = 0 then .error .singularSystem
    else .ok (A2.det⁻¹ • A2.adjugate.mulVec b2)
  else .error .dimensionMismatch

/-- A member whose two endpoints carry identical coordinates. -/
def hasDegenerateMember [Field K] [DecidableEq K] (t : Truss K) : Bool :=
  t.members.any (fun ab => decide (t.nodes.getD ab.1 (0, 0) = t.nodes.getD ab.2 (0, 0)))

/-- Modelled from the spec: the equilibrium assembly entry point, which
rejects zero-length members with `DegenerateMemberError` before building
`A` and `b`. -/
def assembleChecked [Field K] [DecidableEq K] (t : Truss K) (len : ℕ → K) :
    Except TrussError ((ℕ → ℕ → K) × (ℕ → K)) :=
  if hasDegenerateMember t then .error .degenerateMember
  else .ok (assembleA t len, assembleb t)

/-- View a function matrix as a `Matrix` of the given shape. -/
def toMat (r c : ℕ) (M : ℕ → ℕ → K) : Matrix (Fin r) (Fin c) K :=
  Matrix.of fun i j => M i.val j.val

/-- View a function vector as a vector of the given length. -/
def toVec (r : ℕ) (v : ℕ → K) : Fin r → K := fun i => v i.val

/-- Modelled from the spec: the pipeline
determinacy check → assembly (with degeneracy check) → solve.  On a
non-Determinate check the assembler and solver are not invoked. -/
def runTruss [Field K] [DecidableEq K] (t : Truss K) (len : ℕ → K) :
    Except TrussError (Fin (aCols t) → K) :=
  match checkDeterminacy (n_nodes t) (n_members t) with
  | .OverConstrained => .error .structuralOver
  | .UnderConstrained => .error .structuralUnder
  | .Determinate =>
    match assembleChecked t len with
    | .error e => .error e
    | .ok Ab => solve (aRows t) (aCols t) (toMat (aRows t) (aCols t) Ab.1) (toVec (aRows t) Ab.2)

/-- Tension / compression / (numerically) zero classification of a member
force. -/
inductive ForceKind
  | Tension
  | Compression
  | Zero
deriving DecidableEq

/-- Modelled from the spec: sign classification of a solved force, with an
epsilon band around zero. -/
def classifyForce [LinearOrderedField K] (eps f : K) : ForceKind :=
  if |f| ≤ eps then .Zero else if 0 < f then .Tension else .Compression

/-- Modelled from the spec: per-member classification of the solved
unknown vector. -/
def classify [LinearOrderedField K] (x : ℕ → K) (nm : ℕ) (eps : K) :
    List (ℕ × K × ForceKind) :=
  (List.range nm).map fun m => (m, x m, classifyForce eps (x m))

/-- The three reaction components `[FixedRx, FixedRy, RollerRy]` read off
the tail of the unknown vector. -/
def reactions (x : ℕ → K) (nm : ℕ) : K × K × K :=
  (x nm, x (nm + 1), x (nm + 2))

/-- Modelled from the spec: the rendering palette index
(`member_color_index` in the source, whose body is a placeholder).  The
force is mapped linearly from the `[maxCompression, maxTension]` range onto
`[0, nContours]`, clamped at the extremes. -/
def member_color_index [LinearOrderedField K] [FloorRing K]
    (nContours : ℕ) (maxCompression maxTension f : K) : ℤ :=
  Int.floor (max 0 (min 1 ((f - maxCompression) / (maxTension - maxCompression))) * (nContours : K))

/-- The concrete 6-node, 9-member bridge truss shipped with the notebook
(`truss_areaExamF18.txt`, echoed in the notebook's printed output). -/
def bridgeTruss (K : Type) [Field K] : Truss K where
  nodes := [(0, 0), (0, 1), (1, 2), (2, 2), (3, 1), (3, 0)]
  members := [(0, 1), (0, 2), (1, 2), (1, 3), (2, 3), (2, 4), (3, 4), (3, 5), (4, 5)]
  BC_fixed := 0
  BC_roller := 5
  loads := [(1, 0, -1), (2, 0, -2), (3, 0, -2), (4, 0, -1)]

/-- A star geometry with seven members meeting at node 0, exceeding the
source's `max_valence` cap. -/
def crowdedTruss (K : Type) [Field K] : Truss K where
  nodes := [(0, 0), (1, 0), (2, 0), (3, 0), (4, 0), (5, 0), (6, 0), (7, 0)]
  members := [(0, 1), (0, 2), (0, 3), (0, 4), (0, 5), (0, 6), (0, 7)]
  BC_fixed := 1
  BC_roller := 2
  loads := []

/-- A two-node truss carrying two loads on node 0 (their components must be
summed) and one load on node 1. -/
def twoLoadTruss (K : Type) [Field K] : Truss K where
  nodes := [(0, 0), (1, 0)]
  members := [(0, 1)]
  BC_fixed := 0
  BC_roller := 1
  loads := [(0, 1, 2), (0, 3, 4), (1, 5, 6)]

/-- A truss containing a zero-length member: nodes 1 and 2 are distinct
indices sharing identical coordinates, joined by member 1. -/
def degenerateTruss (K : Type) [Field K] : Truss K where
  nodes := [(0, 0), (1, 0), (1, 0)]
  members := [(0, 1), (1, 2), (0, 2)]
  BC_fixed := 0
  BC_roller := 1
  loads := []

/-- The bridge equilibrium matrix with all member columns left unnormalised
(the entry of member `m` at an endpoint is the raw coordinate difference
toward the other endpoint): an integer matrix. -/
def bridgeB : Matrix (Fin 12) (Fin 12) ℤ :=
  !![0, 1, 0, 0, 0, 0, 0, 0, 0, 1, 0, 0;
     1, 2, 0, 0, 0, 0, 0, 0, 0, 0, 1, 0;
     0, 0, 1, 2, 0, 0, 0, 0, 0, 0, 0, 0;
     -1, 0, 1, 1, 0, 0, 0, 0, 0, 0, 0, 0;
     0, -1, -1, 0, 1, 2, 0, 0, 0, 0, 0, 0;
     0, -2, -1, 0, 0, -1, 0, 0, 0, 0, 0, 0;
     0, 0, 0, -2, -1, 0, 1, 1, 0, 0, 0, 0;
     0, 0, 0, -1, 0, 0, -1, -2, 0, 0, 0, 0;
     0, 0, 0, 0, 0, -2, -1, 0, 0, 0, 0, 0;
     0, 0, 0, 0, 0, 1, 1, 0, -1, 0, 0, 0;
     0, 0, 0, 0, 0, 0, 0, -1, 0, 0, 0, 0;
     0, 0, 0, 0, 0, 0, 0, 2, 1, 0, 0, 1]

/-- Three times the inverse of `bridgeB`: an exact integer certificate of
the invertibility of the bridge system. -/
def bridgeC : Matrix (Fin 12) (Fin 12) ℤ :=
  !![0, 0, 5, -3, 4, -2, 4, -1, 5, 0, 6, 0;
     0, 0, -3, 0, -3, 0, -3, 0, -3, 0, -3, 0;
     0, 0, 7, 0, 8, -4, 8, -2, 10, 0, 12, 0;
     0, 0, -2, 0, -4, 2, -4, 1, -5, 0, -6, 0;
     0, 0, 6, 0, 12, -6, 9, -6, 15, 0, 21, 0;
     0, 0, -1, 0, -2, 1, -2, 2, -4, 0, -6, 0;
     0, 0, 2, 0, 4, -2, 4, -4, 5, 0, 12, 0;
     0, 0, 0, 0, 0, 0, 0, 0, 0, 0, -3, 0;
     0, 0, 1, 0, 2, -1, 2, -2, 1, -3, 6, 0;
     3, 0, 3, 0, 3, 0, 3, 0, 3, 0, 3, 0;
     0, 3, 1, 3, 2, 2, 2, 1, 1, 0, 0, 0;
     0, 0, -1, 0, -2, 1, -2, 2, -1, 3, 0, 3]

/-- The exact solution of the unnormalised bridge system `bridgeB y = rhs`:
its member entries are the member force divided by the member length, and
its last three entries are the reactions `[FixedRx, FixedRy, RollerRy]`. -/
def bridgeY : Fin 12 → ℤ := ![-3, 0, -4, 2, -8, 2, -4, 0, -3, 0, 3, 3]

/-- The right-hand side of the bridge system: the negated external loads. -/
def bridgeRhs : Fin 12 → ℤ := ![0, 0, 0, 1, 0, 2, 0, 2, 0, 1, 0, 0]

/-- `bridgeB` as a row list, for entry-by-entry evaluation. -/
def bridgeRows : List (List ℤ) :=
  [[0, 1, 0, 0, 0, 0, 0, 0, 0, 1, 0, 0],
   [1, 2, 0, 0, 0, 0, 0, 0, 0, 0, 1, 0],
   [0, 0, 1, 2, 0, 0, 0, 0, 0, 0, 0, 0],
   [-1, 0, 1, 1, 0, 0, 0, 0, 0, 0, 0, 0],
   [0, -1, -1, 0, 1, 2, 0, 0, 0, 0, 0, 0],
   [0, -2, -1, 0, 0, -1, 0, 0, 0, 0, 0, 0],
   [0, 0, 0, -2, -1, 0, 1, 1, 0, 0, 0, 0],
   [0, 0, 0, -1, 0, 0, -1, -2, 0, 0, 0, 0],
   [0, 0, 0, 0, 0, -2, -1, 0, 0, 0, 0, 0],
   [0, 0, 0, 0, 0, 1, 1, 0, -1, 0, 0, 0],
   [0, 0, 0, 0, 0, 0, 0, -1, 0, 0, 0, 0],
   [0, 0, 0, 0, 0, 0, 0, 2, 1, 0, 0, 1]]

/-- `bridgeRhs` as a list, for entry-by-entry evaluation. -/
def bridgeRhsL : List ℤ := [0, 0, 0, 1, 0, 2, 0, 2, 0, 1, 0, 0]

/-! ### Basic list access lemmas -/

theorem getD_set_self {α : Type} (J : List α) (a : ℕ) (v d : α) (h : a < J.length) :
    (J.set a v).getD a d = v := by
  rw [List.getD_eq_getElem?_getD, List.getElem?_set_self h, Option.getD_some]

theorem getD_set_ne {α : Type} (J : List α) (a i : ℕ) (v d : α) (h : i ≠ a) :
    (J.set a v).getD i d = J.getD i d := by
  rw [List.getD_eq_getElem?_getD, List.getElem?_set_ne (Ne.symm h),
    ← List.getD_eq_getElem?_getD]

theorem getD_replicate {α : Type} (n i : ℕ) (x d : α) (h : i < n) :
    (List.replicate n x).getD i d = x := by
  simp [List.getD_eq_getElem?_getD, List.getElem?_replicate, h]

/-! ### Properties of the joints adjacency array -/

theorem insertFree_append (xs ys : List ℤ) (v : ℤ) (h : ∀ x ∈ xs, x ≠ -1) :
    insertFree (xs ++ -1 :: ys) v = xs ++ v :: ys := by
  induction xs with
  | nil => simp [insertFree]
  | cons x xs ih =>
    have hx : x ≠ -1 := h x (by simp)
    have ih' := ih (fun y hy => h y (by simp [hy]))
    simp only [List.cons_append, insertFree, if_neg hx, List.append_eq, ih']

theorem buildJointsGo_length (s : ℕ) (ms : List (ℕ × ℕ)) (J : List (List ℤ)) :
    (buildJointsGo s ms J).length = J.length := by
  induction ms generalizing s J with
  | nil => rfl
  | cons ab rest ih => simp [buildJointsGo, ih, List.length_set]

theorem buildJointsGo_concat (s : ℕ) (ms : List (ℕ × ℕ)) (ab : ℕ × ℕ) (J : List (List ℤ)) :
    buildJointsGo s (ms ++ [ab]) J =
      (let J0 := buildJointsGo s ms J
       let J1 := J0.set ab.1 (insertFree (J0.getD ab.1 []) (Int.ofNat (s + ms.length)))
       J1.set ab.2 (insertFree (J1.getD ab.2 []) (Int.ofNat (s + ms.length)))) := by
  induction ms generalizing s J with
  | nil => simp [buildJointsGo]
  | cons cd rest ih =>
    simp only [List.cons_append, buildJointsGo, List.append_eq]
    rw [ih]
    simp only [List.length_cons,
      show s + 1 + rest.length = s + (rest.length + 1) from by omega]

theorem incL_concat (ms : List (ℕ × ℕ)) (ab : ℕ × ℕ) (i : ℕ) :
    incL (ms ++ [ab]) i =
      incL ms i ++ if ab.1 = i ∨ ab.2 = i then [ms.length] else [] := by
  unfold incL
  rw [List.length_append, List.length_singleton, List.range_succ, List.filter_append]
  congr 1
  · apply List.filter_congr
    intro m hm
    simp only [List.mem_range] at hm
    unfold memberIncB
    rw [List.getD_append _ _ _ _ hm]
  · have hg : (ms ++ [ab]).getD ms.length (0, 0) = ab := by
      rw [List.getD_append_right _ _ _ _ le_rfl, Nat.sub_self]
      rfl
    by_cases h1 : ab.1 = i <;> by_cases h2 : ab.2 = i <;>
      simp [List.filter_singleton, memberIncB, hg, h1, h2]

theorem mem_incL (ms : List (ℕ × ℕ)) (i m : ℕ) :
    m ∈ incL ms i ↔
      m < ms.length ∧ ((ms.getD m (0, 0)).1 = i ∨ (ms.getD m (0, 0)).2 = i) := by
  unfold incL memberIncB
  simp [List.mem_filter]

theorem incL_sorted (ms : List (ℕ × ℕ)) (i : ℕ) : (incL ms i).Sorted (· < ·) :=
  (List.pairwise_lt_range _).filter _

theorem incL_nodup (ms : List (ℕ × ℕ)) (i : ℕ) : (incL ms i).Nodup :=
  (List.nodup_range _).filter _

theorem buildJoints_spec (n : ℕ) (ms : List (ℕ × ℕ))
    (hv : ∀ ab ∈ ms, ab.1 < n ∧ ab.2 < n ∧ ab.1 ≠ ab.2)
    (hcap : ∀ i < n, (incL ms i).length ≤ max_valence) :
    ∀ i < n,
      (buildJointsGo 0 ms (List.replicate n (List.replicate max_valence (-1)))).getD i []
        = (incL ms i).map Int.ofNat
            ++ List.replicate (max_valence - (incL ms i).length) (-1) := by
  revert hv hcap
  induction ms using List.reverseRecOn with
  | nil =>
    intro _ _ i hi
    simp only [buildJointsGo, incL, List.length_nil, List.range_zero, List.filter_nil,
      List.map_nil, List.length_nil, Nat.sub_zero, List.nil_append]
    exact getD_replicate n i _ [] hi
  | append_singleton ms ab ih =>
    intro hv hcap i hi
    have hv' : ∀ cd ∈ ms, cd.1 < n ∧ cd.2 < n ∧ cd.1 ≠ cd.2 := fun cd hcd =>
      hv cd (List.mem_append_left _ hcd)
    have hcap' : ∀ j < n, (incL ms j).length ≤ max_valence := by
      intro j hj
      have := hcap j hj
      rw [incL_concat, List.length_append] at this
      omega
    have hab := hv ab (List.mem_append_right _ (List.mem_singleton_self ab))
    have rows := ih hv' hcap'
    have hJ0len : (buildJointsGo 0 ms
        (List.replicate n (List.replicate max_valence (-1)))).length = n := by
      rw [buildJointsGo_length, List.length_replicate]
    rw [buildJointsGo_concat]
    simp only [Nat.zero_add]
    set J0 := buildJointsGo 0 ms (List.replicate n (List.replicate max_valence (-1))) with hJ0
    -- the updated row for an endpoint e of the new member
    have newrow : ∀ e, e < n → (ab.1 = e ∨ ab.2 = e) →
        insertFree (J0.getD e []) (Int.ofNat ms.length)
          = (incL (ms ++ [ab]) e).map Int.ofNat
              ++ List.replicate (max_valence - (incL (ms ++ [ab]) e).length) (-1) := by
      intro e he hinc
      have hlen : (incL ms e).length < max_valence := by
        have := hcap e he
        rw [incL_concat, if_pos hinc, List.length_append, List.length_singleton] at this
        omega
      rw [rows e he,
        show max_valence - (incL ms e).length
            = (max_valence - ((incL ms e).length + 1)) + 1 from by omega,
        List.replicate_succ, insertFree_append _ _ _ (by
          intro x hx
          rcases List.mem_map.1 hx with ⟨m, _, rfl⟩
          show (m : ℤ) ≠ -1
          omega),
        incL_concat, if_pos hinc, List.map_append, List.length_append,
        List.length_singleton]
      simp
    by_cases h1 : i = ab.1
    · by_cases h2 : i = ab.2
      · exact absurd (h1.symm.trans h2) hab.2.2
      · subst h1
        rw [getD_set_ne _ _ _ _ _ h2,
          getD_set_self _ _ _ _ (by rw [hJ0len]; exact hi)]
        exact newrow ab.1 hi (Or.inl rfl)
    · by_cases h2 : i = ab.2
      · subst h2
        rw [getD_set_self _ _ _ _ (by rw [List.length_set, hJ0len]; exact hi),
          getD_set_ne _ _ _ _ _ (fun hc => h1 hc)]
        exact newrow ab.2 hi (Or.inr rfl)
      · rw [getD_set_ne _ _ _ _ _ h2, getD_set_ne _ _ _ _ _ h1, rows i hi,
          incL_concat, if_neg (by
            rintro (hc | hc)
            · exact h1 hc.symm
            · exact h2 hc.symm)]
        simp

theorem jointsRow_eq {K : Type} (t : Truss K) (hv : ValidTruss t) (hcap : ValenceOK t)
    (i : ℕ) (hi : i < n_nodes t) :
    jointsRow t i = (incidentMembers t i).map Int.ofNat
      ++ List.replicate (max_valence - (incidentMembers t i).length) (-1) :=
  buildJoints_spec (n_nodes t) t.members hv.1 hcap i hi

theorem mem_incidentMembers {K : Type} (t : Truss K) (i m : ℕ) :
    m ∈ incidentMembers t i ↔ m < n_members t ∧ Incident t m i :=
  mem_incL t.members i m

/-- Claim C10: for a valid geometry in which every node has at most
`max_valence = 6` incident members, row `i` of the `joints` array is
exactly the list of members incident to node `i`, in strictly increasing
member-index order, as a contiguous prefix followed only by `-1` sentinel
entries — the invariant the assembler's early-break scan relies on. -/
theorem joints_row_characterization {K : Type} (t : Truss K) (hv : ValidTruss t)
    (hcap : ValenceOK t) (i : ℕ) (hi : i < n_nodes t) :
    jointsRow t i = (incidentMembers t i).map Int.ofNat
        ++ List.replicate (max_valence - (incidentMembers t i).length) (-1)
      ∧ (∀ m : ℕ, m ∈ incidentMembers t i ↔ m < n_members t ∧ Incident t m i)
      ∧ (incidentMembers t i).Sorted (· < ·) :=
  ⟨jointsRow_eq t hv hcap i hi, fun m => mem_incidentMembers t i m,
    incL_sorted t.members i⟩

/-- Witness for C10 at the bridge truss, node 2: the `joints` row is the
four incident members `1, 2, 4, 5` followed by two `-1` sentinels, as in
the notebook's printed output. -/
theorem joints_row_characterization_witness :
    jointsRow (bridgeTruss ℚ) 2 = [1, 2, 4, 5, -1, -1]
      ∧ (4 ∈ incidentMembers (bridgeTruss ℚ) 2 ↔
          4 < n_members (bridgeTruss ℚ) ∧ Incident (bridgeTruss ℚ) 4 2) := by
  have h := joints_row_characterization (bridgeTruss ℚ) (by decide) (by decide) 2
    (by decide)
  refine ⟨?_, h.2.1 4⟩
  rw [h.1]
  decide

/-- Counterexample to Claim C6 as stated: in `crowdedTruss` seven members
meet at node 0, member 6 is incident to node 0, yet its index does not
appear in the `joints` row of node 0 — the source's fixed `max_valence = 6`
silently drops it. -/
theorem adjacency_truncation_counterexample :
    Incident (crowdedTruss ℚ) 6 0 ∧ 6 < n_members (crowdedTruss ℚ)
      ∧ Int.ofNat 6 ∉ jointsRow (crowdedTruss ℚ) 0 := by
  refine ⟨by decide, by decide, by decide⟩

/-- Claim C6 (amended): for every valid geometry in which each node has at
most `max_valence = 6` incident members, the adjacency builder records
every member incident to a node in that node's `joints` row (beyond six
members at one node the source silently drops members, see the
counterexample). -/
theorem adjacency_records_all_members {K : Type} (t : Truss K) (hv : ValidTruss t)
    (hcap : ValenceOK t) (m i : ℕ) (hm : m < n_members t) (hinc : Incident t m i) :
    Int.ofNat m ∈ jointsRow t i := by
  have hmem : memberNodes t m ∈ t.members := by
    unfold memberNodes
    rw [List.getD_eq_getElem _ _ (by exact hm)]
    exact List.getElem_mem _
  have hi : i < n_nodes t := by
    rcases hinc with h | h
    · exact h ▸ (hv.1 _ hmem).1
    · exact h ▸ (hv.1 _ hmem).2.1
  rw [jointsRow_eq t hv hcap i hi]
  exact List.mem_append_left _
    (List.mem_map_of_mem _ ((mem_incidentMembers t i m).2 ⟨hm, hinc⟩))

/-- Witness for the amended C6 at the bridge truss: member 4 joins nodes 2
and 3 and indeed appears in the `joints` rows of both its endpoints. -/
theorem adjacency_records_all_members_witness :
    Int.ofNat 4 ∈ jointsRow (bridgeTruss ℚ) 2 ∧ Int.ofNat 4 ∈ jointsRow (bridgeTruss ℚ) 3 :=
  ⟨adjacency_records_all_members (bridgeTruss ℚ) (by decide) (by decide) 4 2
      (by decide) (by decide),
    adjacency_records_all_members (bridgeTruss ℚ) (by decide) (by decide) 4 3
      (by decide) (by decide)⟩

/-! ### Entry-level characterisation of the assembled matrix -/

theorem mset_self {K : Type} (M : ℕ → ℕ → K) (r c : ℕ) (v : K) : mset M r c v r c = v := by
  simp [mset]

theorem mset_other {K : Type} (M : ℕ → ℕ → K) (r c : ℕ) (v : K) (r0 c0 : ℕ)
    (h : ¬(r0 = r ∧ c0 = c)) : mset M r c v r0 c0 = M r0 c0 := by
  simp [mset, h]

section AssemblerLemmas

variable {K : Type} [Field K]

theorem fillMembers_cons (t : Truss K) (len : ℕ → K) (i : ℕ) (A : ℕ → ℕ → K)
    (z : ℤ) (L : List ℤ) :
    fillMembers t len i A (z :: L)
      = fillMembers t len i
          (mset (mset A (2 * i) z.toNat ((memberDir t z.toNat i).1 / len z.toNat))
            (2 * i + 1) z.toNat ((memberDir t z.toNat i).2 / len z.toNat)) L := rfl

theorem fillMembers_row_other (t : Truss K) (len : ℕ → K) (i : ℕ) (A : ℕ → ℕ → K)
    (L : List ℤ) (r c : ℕ) (h0 : r ≠ 2 * i) (h1 : r ≠ 2 * i + 1) :
    fillMembers t len i A L r c = A r c := by
  induction L generalizing A with
  | nil => rfl
  | cons z L ih =>
    rw [fillMembers_cons, ih]
    rw [mset_other _ _ _ _ _ _ (fun hc => h1 hc.1), mset_other _ _ _ _ _ _ (fun hc => h0 hc.1)]

theorem fillMembers_cons_nat (t : Truss K) (len : ℕ → K) (i : ℕ) (A : ℕ → ℕ → K)
    (m : ℕ) (L : List ℤ) :
    fillMembers t len i A (Int.ofNat m :: L)
      = fillMembers t len i
          (mset (mset A (2 * i) m ((memberDir t m i).1 / len m))
            (2 * i + 1) m ((memberDir t m i).2 / len m)) L := rfl

theorem fillMembers_col_not_mem (t : Truss K) (len : ℕ → K) (i : ℕ) (A : ℕ → ℕ → K)
    (ls : List ℕ) (r c : ℕ) (hc : c ∉ ls) :
    fillMembers t len i A (ls.map Int.ofNat) r c = A r c := by
  induction ls generalizing A with
  | nil => rfl
  | cons m ls ih =>
    have hcm : c ≠ m := fun h => hc (h ▸ List.mem_cons_self m ls)
    rw [List.map_cons, fillMembers_cons_nat, ih _ (fun h => hc (List.mem_cons_of_mem _ h)),
      mset_other _ _ _ _ _ _ (fun h => hcm h.2), mset_other _ _ _ _ _ _ (fun h => hcm h.2)]

theorem fillMembers_col_mem (t : Truss K) (len : ℕ → K) (i : ℕ) (A : ℕ → ℕ → K)
    (ls : List ℕ) (hnd : ls.Nodup) (c : ℕ) (hc : c ∈ ls) :
    fillMembers t len i A (ls.map Int.ofNat) (2 * i) c = (memberDir t c i).1 / len c
      ∧ fillMembers t len i A (ls.map Int.ofNat) (2 * i + 1) c
          = (memberDir t c i).2 / len c := by
  induction ls generalizing A with
  | nil => cases hc
  | cons m ls ih =>
    rw [List.map_cons, fillMembers_cons_nat]
    by_cases h : c ∈ ls
    · exact ih _ hnd.of_cons h
    · have hcm : c = m := by
        rcases List.mem_cons.1 hc with h1 | h1
        · exact h1
        · exact absurd h1 h
      subst hcm
      constructor
      · rw [fillMembers_col_not_mem _ _ _ _ _ _ _ h,
          mset_other _ _ _ _ _ _ (by omega), mset_self]
      · rw [fillMembers_col_not_mem _ _ _ _ _ _ _ h, mset_self]

theorem fillMembers_pointwise (t : Truss K) (len : ℕ → K) (i : ℕ) (L : List ℤ)
    (A B : ℕ → ℕ → K) (r c : ℕ) (h : A r c = B r c) :
    fillMembers t len i A L r c = fillMembers t len i B L r c := by
  induction L generalizing A B with
  | nil => exact h
  | cons z L ih =>
    rw [fillMembers_cons, fillMembers_cons]
    apply ih
    unfold mset
    split
    · rfl
    · split
      · rfl
      · exact h

end AssemblerLemmas

theorem takeWhile_row (xs : List ℕ) (k : ℕ) :
    ((xs.map Int.ofNat ++ List.replicate k (-1)).takeWhile (fun v => decide (0 ≤ v)))
      = xs.map Int.ofNat := by
  induction xs with
  | nil =>
    cases k with
    | zero => rfl
    | succ k => simp [List.replicate_succ, List.takeWhile_cons]
  | cons m xs ih =>
    simp only [List.map_cons, List.cons_append, List.takeWhile_cons]
    have : (0 : ℤ) ≤ Int.ofNat m := Int.ofNat_nonneg m
    simp [this, ih]

theorem scan_eq {K : Type} (t : Truss K) (hv : ValidTruss t) (hcap : ValenceOK t) (i : ℕ)
    (hi : i < n_nodes t) :
    (jointsRow t i).takeWhile (fun v => decide (0 ≤ v))
      = (incidentMembers t i).map Int.ofNat := by
  rw [jointsRow_eq t hv hcap i hi]
  exact takeWhile_row _ _

section AssembleNodeLemmas

variable {K : Type} [Field K]

theorem assembleNode_row_other (t : Truss K) (len : ℕ → K) (A : ℕ → ℕ → K) (i r c : ℕ)
    (h0 : r ≠ 2 * i) (h1 : r ≠ 2 * i + 1) :
    assembleNode t len A i r c = A r c := by
  have hA1 : fillMembers t len i A ((jointsRow t i).takeWhile fun v => decide (0 ≤ v)) r c
      = A r c := fillMembers_row_other _ _ _ _ _ _ _ h0 h1
  simp only [assembleNode]
  split
  · rw [mset_other _ _ _ _ _ _ (fun hc => h1 hc.1)]
    split
    · rw [mset_other _ _ _ _ _ _ (fun hc => h1 hc.1),
        mset_other _ _ _ _ _ _ (fun hc => h0 hc.1)]
      exact hA1
    · exact hA1
  · split
    · rw [mset_other _ _ _ _ _ _ (fun hc => h1 hc.1),
        mset_other _ _ _ _ _ _ (fun hc => h0 hc.1)]
      exact hA1
    · exact hA1

theorem assembleNode_even (t : Truss K) (len : ℕ → K) (A : ℕ → ℕ → K) (i c : ℕ)
    (hscan : (jointsRow t i).takeWhile (fun v => decide (0 ≤ v))
      = (incidentMembers t i).map Int.ofNat) :
    assembleNode t len A i (2 * i) c =
      if i = t.BC_fixed ∧ c = n_members t then 1
      else if c ∈ incidentMembers t i then (memberDir t c i).1 / len c
      else A (2 * i) c := by
  have hfill : fillMembers t len i A ((incidentMembers t i).map Int.ofNat) (2 * i) c
      = if c ∈ incidentMembers t i then (memberDir t c i).1 / len c else A (2 * i) c := by
    by_cases hcin : c ∈ incidentMembers t i
    · rw [if_pos hcin]
      exact (fillMembers_col_mem t len i A _ (incL_nodup _ _) c hcin).1
    · rw [if_neg hcin]
      exact fillMembers_col_not_mem t len i A _ _ _ hcin
  simp only [assembleNode, hscan]
  have hrow : (2 : ℕ) * i ≠ 2 * i + 1 := by omega
  split
  · rw [mset_other _ _ _ _ _ _ (fun hc => hrow hc.1)]
    split
    · rename_i hf
      rw [mset_other _ _ _ _ _ _ (fun hc => hrow hc.1)]
      by_cases hcnm : c = n_members t
      · subst hcnm
        rw [mset_self, if_pos ⟨hf, rfl⟩]
      · rw [mset_other _ _ _ _ _ _ (fun hc => hcnm hc.2), if_neg (fun hc => hcnm hc.2), hfill]
    · rename_i hf
      rw [if_neg (fun hc => hf hc.1), hfill]
  · split
    · rename_i hf
      rw [mset_other _ _ _ _ _ _ (fun hc => hrow hc.1)]
      by_cases hcnm : c = n_members t
      · subst hcnm
        rw [mset_self, if_pos ⟨hf, rfl⟩]
      · rw [mset_other _ _ _ _ _ _ (fun hc => hcnm hc.2), if_neg (fun hc => hcnm hc.2), hfill]
    · rename_i hf
      rw [if_neg (fun hc => hf hc.1), hfill]

theorem assembleNode_odd (t : Truss K) (len : ℕ → K) (A : ℕ → ℕ → K) (i c : ℕ)
    (hscan : (jointsRow t i).takeWhile (fun v => decide (0 ≤ v))
      = (incidentMembers t i).map Int.ofNat) :
    assembleNode t len A i (2 * i + 1) c =
      if i = t.BC_roller ∧ c = n_members t + 2 then 1
      else if i = t.BC_fixed ∧ c = n_members t + 1 then 1
      else if c ∈ incidentMembers t i then (memberDir t c i).2 / len c
      else A (2 * i + 1) c := by
  have hfill : fillMembers t len i A ((incidentMembers t i).map Int.ofNat) (2 * i + 1) c
      = if c ∈ incidentMembers t i then (memberDir t c i).2 / len c
        else A (2 * i + 1) c := by
    by_cases hcin : c ∈ incidentMembers t i
    · rw [if_pos hcin]
      exact (fillMembers_col_mem t len i A _ (incL_nodup _ _) c hcin).2
    · rw [if_neg hcin]
      exact fillMembers_col_not_mem t len i A _ _ _ hcin
  have hA2 : ∀ hf : i = t.BC_fixed,
      (mset (mset (fillMembers t len i A ((incidentMembers t i).map Int.ofNat))
          (2 * i) (n_members t) 1) (2 * i + 1) (n_members t + 1) 1) (2 * i + 1) c
        = if i = t.BC_fixed ∧ c = n_members t + 1 then 1
          else if c ∈ incidentMembers t i then (memberDir t c i).2 / len c
          else A (2 * i + 1) c := by
    intro hf
    by_cases hcn1 : c = n_members t + 1
    · subst hcn1
      rw [mset_self, if_pos ⟨hf, rfl⟩]
    · rw [mset_other _ _ _ _ _ _ (fun hc => hcn1 hc.2),
        mset_other _ _ _ _ _ _ (fun hc => by omega), if_neg (fun hc => hcn1 hc.2), hfill]
  simp only [assembleNode, hscan]
  have hnR : ¬c = n_members t + 2 → ¬(i = t.BC_roller ∧ c = n_members t + 2) :=
    fun h hc => h hc.2
  have hnF : ¬i = t.BC_fixed → ¬(i = t.BC_fixed ∧ c = n_members t + 1) :=
    fun h hc => h hc.1
  by_cases hr : i = t.BC_roller
  · rw [if_pos hr]
    by_cases hcn2 : c = n_members t + 2
    · subst hcn2
      rw [mset_self, if_pos (show i = t.BC_roller ∧ n_members t + 2 = n_members t + 2
        from ⟨hr, rfl⟩)]
    · rw [mset_other _ _ _ _ _ _ (fun hc => hcn2 hc.2), if_neg (hnR hcn2)]
      by_cases hf : i = t.BC_fixed
      · rw [if_pos hf]
        exact hA2 hf
      · rw [if_neg hf, if_neg (hnF hf), hfill]
  · rw [if_neg hr,
      if_neg (show ¬(i = t.BC_roller ∧ c = n_members t + 2) from fun hc => hr hc.1)]
    by_cases hf : i = t.BC_fixed
    · rw [if_pos hf]
      exact hA2 hf
    · rw [if_neg hf, if_neg (hnF hf), hfill]

theorem assembleNode_pointwise (t : Truss K) (len : ℕ → K) (hv : ValidTruss t)
    (hcap : ValenceOK t) (i : ℕ) (hi : i < n_nodes t) (A B : ℕ → ℕ → K) (r c : ℕ)
    (h : A r c = B r c) :
    assembleNode t len A i r c = assembleNode t len B i r c := by
  have hscan := scan_eq t hv hcap i hi
  by_cases h0 : r = 2 * i
  · subst h0
    rw [assembleNode_even t len A i c hscan, assembleNode_even t len B i c hscan]
    split
    · rfl
    · split
      · rfl
      · exact h
  · by_cases h1 : r = 2 * i + 1
    · subst h1
      rw [assembleNode_odd t len A i c hscan, assembleNode_odd t len B i c hscan]
      split
      · rfl
      · split
        · rfl
        · split
          · rfl
          · exact h
    · rw [assembleNode_row_other t len A i r c h0 h1,
        assembleNode_row_other t len B i r c h0 h1]
      exact h

theorem foldl_assembleNode_other (t : Truss K) (len : ℕ → K) (l : List ℕ)
    (A : ℕ → ℕ → K) (r c : ℕ) (h : ∀ j ∈ l, r ≠ 2 * j ∧ r ≠ 2 * j + 1) :
    (l.foldl (assembleNode t len) A) r c = A r c := by
  induction l generalizing A with
  | nil => rfl
  | cons j l ih =>
    rw [List.foldl_cons, ih _ (fun j' hj' => h j' (List.mem_cons_of_mem _ hj')),
      assembleNode_row_other _ _ _ _ _ _ (h j (List.mem_cons_self j l)).1
        (h j (List.mem_cons_self j l)).2]

theorem foldl_assembleNode_entry (t : Truss K) (len : ℕ → K) (hv : ValidTruss t)
    (hcap : ValenceOK t) (l : List ℕ) (hl : l.Nodup) (hln : ∀ j ∈ l, j < n_nodes t)
    (i : ℕ) (hi : i ∈ l) (A : ℕ → ℕ → K) (r c : ℕ) (hr : r = 2 * i ∨ r = 2 * i + 1) :
    (l.foldl (assembleNode t len) A) r c = assembleNode t len A i r c := by
  induction l generalizing A with
  | nil => cases hi
  | cons j l ih =>
    rw [List.foldl_cons]
    by_cases hj : j = i
    · subst hj
      have hnotin : ∀ j' ∈ l, r ≠ 2 * j' ∧ r ≠ 2 * j' + 1 := by
        intro j' hj'
        have hne : j' ≠ j := fun he => (List.nodup_cons.1 hl).1 (he ▸ hj')
        omega
      exact foldl_assembleNode_other t len l _ r c hnotin
    · have hi' : i ∈ l := (List.mem_cons.1 hi).resolve_left (fun he => hj he.symm)
      rw [ih (List.nodup_cons.1 hl).2 (fun j' h' => hln j' (List.mem_cons_of_mem _ h')) hi' _]
      exact assembleNode_pointwise t len hv hcap i (hln i hi) _ _ r c
        (assembleNode_row_other t len A j r c (by omega) (by omega))

end AssembleNodeLemmas

theorem assembleA_even {K : Type} [Field K] (t : Truss K) (len : ℕ → K)
    (hv : ValidTruss t) (hcap : ValenceOK t) (i : ℕ) (hi : i < n_nodes t) (c : ℕ) :
    assembleA t len (2 * i) c =
      if i = t.BC_fixed ∧ c = n_members t then 1
      else if c ∈ incidentMembers t i then (memberDir t c i).1 / len c
      else 0 := by
  unfold assembleA
  rw [foldl_assembleNode_entry t len hv hcap _ (List.nodup_range _)
      (fun j hj => List.mem_range.1 hj) i (List.mem_range.2 hi) _ _ _ (Or.inl rfl),
    assembleNode_even t len _ i c (scan_eq t hv hcap i hi)]

theorem assembleA_odd {K : Type} [Field K] (t : Truss K) (len : ℕ → K)
    (hv : ValidTruss t) (hcap : ValenceOK t) (i : ℕ) (hi : i < n_nodes t) (c : ℕ) :
    assembleA t len (2 * i + 1) c =
      if i = t.BC_roller ∧ c = n_members t + 2 then 1
      else if i = t.BC_fixed ∧ c = n_members t + 1 then 1
      else if c ∈ incidentMembers t i then (memberDir t c i).2 / len c
      else 0 := by
  unfold assembleA
  rw [foldl_assembleNode_entry t len hv hcap _ (List.nodup_range _)
      (fun j hj => List.mem_range.1 hj) i (List.mem_range.2 hi) _ _ _ (Or.inr rfl),
    assembleNode_odd t len _ i c (scan_eq t hv hcap i hi)]

theorem addAt_self {K : Type} [Field K] (b : ℕ → K) (r : ℕ) (v : K) :
    addAt b r v r = b r + v := by
  simp [addAt]

theorem addAt_other {K : Type} [Field K] (b : ℕ → K) (r : ℕ) (v : K) (r0 : ℕ)
    (h : r0 ≠ r) : addAt b r v r0 = b r0 := by
  simp [addAt, h]

theorem assembleb_go {K : Type} [Field K] (loads : List (ℕ × K × K)) (b0 : ℕ → K) (i : ℕ) :
    (loads.foldl (fun bb l => addAt (addAt bb (2 * l.1) (-l.2.1)) (2 * l.1 + 1) (-l.2.2)) b0)
        (2 * i)
      = b0 (2 * i) - ((loads.filter (fun l => l.1 == i)).map (fun l => l.2.1)).sum
    ∧ (loads.foldl (fun bb l => addAt (addAt bb (2 * l.1) (-l.2.1)) (2 * l.1 + 1) (-l.2.2)) b0)
        (2 * i + 1)
      = b0 (2 * i + 1) - ((loads.filter (fun l => l.1 == i)).map (fun l => l.2.2)).sum := by
  induction loads generalizing b0 with
  | nil => simp
  | cons l ls ih =>
    rw [List.foldl_cons]
    constructor
    · rw [(ih _).1]
      by_cases h : l.1 = i
      · rw [List.filter_cons_of_pos (by simpa using h), List.map_cons, List.sum_cons,
          addAt_other _ _ _ _ (by omega), h, addAt_self]
        ring
      · rw [List.filter_cons_of_neg (by simpa using h),
          addAt_other _ _ _ _ (by omega), addAt_other _ _ _ _ (by omega)]
    · rw [(ih _).2]
      by_cases h : l.1 = i
      · rw [List.filter_cons_of_pos (by simpa using h), List.map_cons, List.sum_cons,
          h, addAt_self, addAt_other _ _ _ _ (by omega)]
        ring
      · rw [List.filter_cons_of_neg (by simpa using h),
          addAt_other _ _ _ _ (by omega), addAt_other _ _ _ _ (by omega)]

theorem assembleb_even_eq {K : Type} [Field K] (t : Truss K) (i : ℕ) :
    assembleb t (2 * i)
      = -(((t.loads.filter (fun l => l.1 == i)).map (fun l => l.2.1)).sum) := by
  have h := assembleb_go t.loads (fun _ => 0) i
  unfold assembleb
  rw [h.1]
  ring

theorem assembleb_odd_eq {K : Type} [Field K] (t : Truss K) (i : ℕ) :
    assembleb t (2 * i + 1)
      = -(((t.loads.filter (fun l => l.1 == i)).map (fun l => l.2.2)).sum) := by
  have h := assembleb_go t.loads (fun _ => 0) i
  unfold assembleb
  rw [h.2]
  ring

/-- Claim C2: the assembled right-hand side carries, at rows `2i` and
`2i+1`, the negated sums of the x- and y-components of all loads targeting
node `i`; several loads on one node are summed, and a node with no load
gets zero entries. -/
theorem rhs_assembly {K : Type} [Field K] (t : Truss K) (i : ℕ) :
    assembleb t (2 * i)
        = -(((t.loads.filter (fun l => l.1 == i)).map (fun l => l.2.1)).sum)
      ∧ assembleb t (2 * i + 1)
        = -(((t.loads.filter (fun l => l.1 == i)).map (fun l => l.2.2)).sum)
      ∧ ((∀ l ∈ t.loads, l.1 ≠ i) →
          assembleb t (2 * i) = 0 ∧ assembleb t (2 * i + 1) = 0) := by
  refine ⟨assembleb_even_eq t i, assembleb_odd_eq t i, fun hnone => ?_⟩
  have hfil : t.loads.filter (fun l => l.1 == i) = [] :=
    List.filter_eq_nil_iff.2 (fun l hl => by simpa using hnone l hl)
  rw [assembleb_even_eq t i, assembleb_odd_eq t i, hfil]
  simp

/-- Witness for C2 at `twoLoadTruss`: the two loads on node 0 are summed
(`b[0] = -(1+3)`, `b[1] = -(2+4)`), and node 2 carries no load so rows 4
and 5 are zero. -/
theorem rhs_assembly_witness :
    assembleb (twoLoadTruss ℚ) 0 = -4
      ∧ assembleb (twoLoadTruss ℚ) 1 = -6
      ∧ assembleb (twoLoadTruss ℚ) 4 = 0 ∧ assembleb (twoLoadTruss ℚ) 5 = 0 := by
  have h0 := rhs_assembly (twoLoadTruss ℚ) 0
  have h2 := rhs_assembly (twoLoadTruss ℚ) 2
  refine ⟨?_, ?_, h2.2.2 (by decide)⟩
  · rw [show (0 : ℕ) = 2 * 0 from rfl, h0.1]
    norm_num [twoLoadTruss, List.filter_cons, List.filter_nil]
  · rw [show (1 : ℕ) = 2 * 0 + 1 from rfl, h0.2.1]
    norm_num [twoLoadTruss, List.filter_cons, List.filter_nil]

/-! ### Determinacy check and pipeline gating -/

/-- Claim C3: the determinacy check returns `Determinate` exactly when
`2*nodeCount = memberCount + 3`, `UnderConstrained` when `2*nodeCount` is
greater and `OverConstrained` when it is smaller; and on a non-Determinate
result the pipeline stops with a structural error — the assembler and
solver are never invoked. -/
theorem determinacy_check {K : Type} [Field K] [DecidableEq K] :
    (∀ nodeCount memberCount : ℕ,
      (checkDeterminacy nodeCount memberCount = .Determinate
          ↔ 2 * nodeCount = memberCount + 3)
        ∧ (memberCount + 3 < 2 * nodeCount →
            checkDeterminacy nodeCount memberCount = .UnderConstrained)
        ∧ (2 * nodeCount < memberCount + 3 →
            checkDeterminacy nodeCount memberCount = .OverConstrained))
    ∧ ∀ (t : Truss K) (len : ℕ → K),
        checkDeterminacy (n_nodes t) (n_members t) ≠ .Determinate →
          runTruss t len = .error .structuralOver
            ∨ runTruss t len = .error .structuralUnder := by
  constructor
  · intro nodeCount memberCount
    unfold checkDeterminacy
    refine ⟨⟨fun h => ?_, fun h => by rw [if_pos h]⟩, fun h => ?_, fun h => ?_⟩
    · by_contra hne
      rw [if_neg hne] at h
      split at h <;> cases h
    · rw [if_neg (by omega), if_pos h]
    · rw [if_neg (by omega), if_neg (by omega)]
  · intro t len hne
    unfold runTruss
    cases hd : checkDeterminacy (n_nodes t) (n_members t) with
    | Determinate => exact absurd hd hne
    | OverConstrained => exact Or.inl rfl
    | UnderConstrained => exact Or.inr rfl

/-- Witness for C3: the bridge's counts pass (`2*6 = 9+3`), deficient and
redundant counts are flagged, and on `crowdedTruss` (8 nodes, 7 members,
under-constrained) the pipeline stops with a structural error. -/
theorem determinacy_check_witness :
    checkDeterminacy 6 9 = .Determinate
      ∧ checkDeterminacy 6 8 = .UnderConstrained
      ∧ checkDeterminacy 6 10 = .OverConstrained
      ∧ (runTruss (crowdedTruss ℚ) (fun _ => 1) = .error .structuralOver
          ∨ runTruss (crowdedTruss ℚ) (fun _ => 1) = .error .structuralUnder) :=
  ⟨((determinacy_check (K := ℚ)).1 6 9).1.2 (by norm_num),
    ((determinacy_check (K := ℚ)).1 6 8).2.1 (by norm_num),
    ((determinacy_check (K := ℚ)).1 6 10).2.2 (by norm_num),
    (determinacy_check (K := ℚ)).2 (crowdedTruss ℚ) (fun _ => 1) (by decide)⟩

/-- Claim C7: an input containing a zero-length member — two distinct node
indices with identical coordinates — makes the equilibrium assembly fail
with `degenerateMember` instead of dividing by zero. -/
theorem degenerate_member_detected {K : Type} [Field K] [DecidableEq K] (t : Truss K)
    (len : ℕ → K) (ab : ℕ × ℕ) (hmem : ab ∈ t.members) (hne : ab.1 ≠ ab.2)
    (hco : t.nodes.getD ab.1 (0, 0) = t.nodes.getD ab.2 (0, 0)) :
    assembleChecked t len = .error .degenerateMember := by
  have hdeg : hasDegenerateMember t = true := by
    unfold hasDegenerateMember
    rw [List.any_eq_true]
    exact ⟨ab, hmem, by simpa using hco⟩
  simp [assembleChecked, hdeg]

/-- Witness for C7: `degenerateTruss` joins the coincident nodes 1 and 2 by
its member 1, and the assembly reports the degenerate member. -/
theorem degenerate_member_detected_witness :
    assembleChecked (degenerateTruss ℚ) (fun _ => 1) = .error .degenerateMember :=
  degenerate_member_detected (degenerateTruss ℚ) (fun _ => 1) (1, 2)
    (by decide) (by decide) rfl

/-! ### The result classifier and the rendering palette -/

/-- Claim C9: the classifier marks a solved force Tension when strictly
positive, Compression when strictly negative, and Zero when it vanishes
within epsilon; the palette index is the linear image of the force over the
configurable `[maxCompression, maxTension]` range, clamped at both
extremes.  The classifier list carries, for each member `m`, exactly the
kind of `x m`. -/
theorem classifier_spec {K : Type} [LinearOrderedField K] [FloorRing K]
    (eps f maxC maxT : K) (n : ℕ) (heps : 0 ≤ eps) (hrange : maxC < maxT) :
    (classifyForce eps f = .Zero ↔ |f| ≤ eps)
      ∧ (eps < |f| → (classifyForce eps f = .Tension ↔ 0 < f))
      ∧ (eps < |f| → (classifyForce eps f = .Compression ↔ f < 0))
      ∧ (∀ (x : ℕ → K) (nm m : ℕ), m < nm →
          (classify x nm eps).getD m (0, 0, .Zero) = (m, x m, classifyForce eps (x m)))
      ∧ (f ≤ maxC → member_color_index n maxC maxT f = 0)
      ∧ (maxT ≤ f → member_color_index n maxC maxT f = n)
      ∧ (maxC ≤ f → f ≤ maxT →
          member_color_index n maxC maxT f
            = Int.floor ((f - maxC) / (maxT - maxC) * n)) := by
  have hden : (0 : K) < maxT - maxC := by linarith
  refine ⟨?_, ?_, ?_, ?_, ?_, ?_, ?_⟩
  · unfold classifyForce
    constructor
    · intro h
      by_contra hc
      rw [if_neg hc] at h
      split at h <;> cases h
    · intro h
      rw [if_pos h]
  · intro hf
    unfold classifyForce
    rw [if_neg (not_le.2 hf)]
    constructor
    · intro h
      by_contra hc
      rw [if_neg hc] at h
      cases h
    · intro h
      rw [if_pos h]
  · intro hf
    unfold classifyForce
    rw [if_neg (not_le.2 hf)]
    constructor
    · intro h
      rcases lt_trichotomy f 0 with h0 | h0 | h0
      · exact h0
      · subst h0
        simp only [abs_zero] at hf
        exact absurd heps (not_le.2 hf)
      · rw [if_pos h0] at h
        cases h
    · intro h0
      rw [if_neg (not_lt.2 h0.le)]
  · intro x nm m hm
    unfold classify
    rw [List.getD_eq_getElem _ _ (by simpa using hm)]
    simp
  · intro h
    unfold member_color_index
    have ht : (f - maxC) / (maxT - maxC) ≤ 0 :=
      div_nonpos_of_nonpos_of_nonneg (by linarith) (by linarith)
    rw [min_eq_right (by linarith), max_eq_left ht]
    simp
  · intro h
    unfold member_color_index
    have ht : (1 : K) ≤ (f - maxC) / (maxT - maxC) := (one_le_div hden).2 (by linarith)
    rw [min_eq_left ht, max_eq_right (by linarith : (0 : K) ≤ 1), one_mul,
      Int.floor_natCast]
  · intro h1 h2
    unfold member_color_index
    have ht0 : (0 : K) ≤ (f - maxC) / (maxT - maxC) :=
      div_nonneg (by linarith) (by linarith)
    have ht1 : (f - maxC) / (maxT - maxC) ≤ 1 := (div_le_one hden).2 (by linarith)
    rw [min_eq_right ht1, max_eq_right ht0]

/-- Witness for C9 over ℚ: with `eps = 0` a force of `5` is Tension, `-3`
is Compression and `0` is Zero; with 50 contours over `[-10, 10]` the force
`0` lands on palette index 25, as in the notebook's comment. -/
theorem classifier_spec_witness :
    classifyForce (0 : ℚ) 5 = .Tension
      ∧ classifyForce (0 : ℚ) (-3) = .Compression
      ∧ classifyForce (0 : ℚ) 0 = .Zero
      ∧ member_color_index 50 (-10 : ℚ) 10 0 = 25
      ∧ member_color_index 50 (-10 : ℚ) 10 (-11) = 0
      ∧ member_color_index 50 (-10 : ℚ) 10 12 = 50 := by
  have h5 := classifier_spec (0 : ℚ) 5 (-10) 10 50 le_rfl (by norm_num)
  have h3 := classifier_spec (0 : ℚ) (-3) (-10) 10 50 le_rfl (by norm_num)
  have h0 := classifier_spec (0 : ℚ) 0 (-10) 10 50 le_rfl (by norm_num)
  have hm11 := classifier_spec (0 : ℚ) (-11) (-10) 10 50 le_rfl (by norm_num)
  have h12 := classifier_spec (0 : ℚ) 12 (-10) 10 50 le_rfl (by norm_num)
  refine ⟨(h5.2.1 (by norm_num)).2 (by norm_num),
    (h3.2.2.1 (by norm_num)).2 (by norm_num),
    h0.1.2 (by norm_num),
    ?_, hm11.2.2.2.2.1 (by norm_num), ?_⟩
  · rw [h0.2.2.2.2.2.2 (by norm_num) (by norm_num)]
    norm_num
  · rw [h12.2.2.2.2.2.1 (by norm_num)]
    norm_num

/-! ### The linear solve contract -/

theorem solve_eq_square {K : Type} [Field K] [DecidableEq K] (n : ℕ)
    (A : Matrix (Fin n) (Fin n) K) (b : Fin n → K) :
    solve n n A b =
      if A.det = 0 then .error .singularSystem
      else .ok (A.det⁻¹ • A.adjugate.mulVec b) := by
  unfold solve
  rw [dif_pos rfl]
  rfl

/-- Claim C8: the solve rejects a non-square system with
`dimensionMismatch`; on a square system it fails with `singularSystem`
exactly when the matrix is not invertible (even though determinacy may have
held), and otherwise returns the unknown vector — a solution of the
system. -/
theorem solve_contract {K : Type} [Field K] [DecidableEq K] :
    (∀ (r c : ℕ) (A : Matrix (Fin r) (Fin c) K) (b : Fin r → K),
        r ≠ c → solve r c A b = .error .dimensionMismatch)
      ∧ (∀ (n : ℕ) (A : Matrix (Fin n) (Fin n) K) (b : Fin n → K),
          (solve n n A b = .error .singularSystem ↔ ¬IsUnit A)
            ∧ (IsUnit A → ∃ x, solve n n A b = .ok x ∧ A.mulVec x = b)) := by
  constructor
  · intro r c A b hne
    unfold solve
    rw [dif_neg hne]
  · intro n A b
    have hiff : ¬IsUnit A ↔ A.det = 0 := by
      rw [Matrix.isUnit_iff_isUnit_det, isUnit_iff_ne_zero, not_not]
    constructor
    · rw [solve_eq_square, hiff]
      by_cases hd : A.det = 0
      · simp [hd]
      · simp [hd]
    · intro hU
      have hd : A.det ≠ 0 := by
        rw [← isUnit_iff_ne_zero, ← Matrix.isUnit_iff_isUnit_det]
        exact hU
      refine ⟨A.det⁻¹ • A.adjugate.mulVec b, ?_, ?_⟩
      · rw [solve_eq_square, if_neg hd]
      · rw [Matrix.mulVec_smul, Matrix.mulVec_mulVec, Matrix.mul_adjugate,
          Matrix.smul_mulVec_assoc, Matrix.one_mulVec, smul_smul,
          inv_mul_cancel₀ hd, one_smul]

/-- Witness for C8 over ℚ: a 1×2 system is a dimension mismatch, the 1×1
zero matrix is singular, and the invertible system `2x = 4` is solved. -/
theorem solve_contract_witness :
    solve 1 2 (!![1, 2] : Matrix (Fin 1) (Fin 2) ℚ) ![3] = .error .dimensionMismatch
      ∧ solve 1 1 (!![0] : Matrix (Fin 1) (Fin 1) ℚ) ![1] = .error .singularSystem
      ∧ ∃ x, solve 1 1 (!![2] : Matrix (Fin 1) (Fin 1) ℚ) ![4] = .ok x
          ∧ (!![2] : Matrix (Fin 1) (Fin 1) ℚ).mulVec x = ![4] := by
  have h := solve_contract (K := ℚ)
  refine ⟨h.1 1 2 _ _ (by norm_num), ?_, ?_⟩
  · exact (h.2 1 !![0] ![1]).1.2
      (by simp [Matrix.isUnit_iff_isUnit_det, Matrix.det_fin_one, isUnit_iff_ne_zero])
  · exact (h.2 1 !![2] ![4]).2
      (by simp [Matrix.isUnit_iff_isUnit_det, Matrix.det_fin_one, isUnit_iff_ne_zero])

/-! ### Global equilibrium -/

section ColumnSums

variable {K : Type} [Field K]

end ColumnSums

set_option maxRecDepth 10000 in
theorem bridgeB_eq_rows :
    ∀ i j : Fin 12, bridgeB i j = (bridgeRows.getD i.val []).getD j.val 0 := by
  decide

set_option maxRecDepth 10000 in
theorem bridgeC_mul : bridgeB * bridgeC = (3 : ℤ) • 1 := by
  decide

set_option maxRecDepth 10000 in
theorem bridgeY_solves : bridgeB.mulVec bridgeY = bridgeRhs := by
  decide

theorem bridgeRhs_eq_list : ∀ i : Fin 12, bridgeRhs i = bridgeRhsL.getD i.val 0 := by
  decide

theorem bridge_valid {K : Type} [Field K] : ValidTruss (bridgeTruss K) :=
  ⟨(by decide :
      ∀ ab ∈ [(0, 1), (0, 2), (1, 2), (1, 3), (2, 3), (2, 4), (3, 4), (3, 5), (4, 5)],
        ab.1 < 6 ∧ ab.2 < 6 ∧ ab.1 ≠ ab.2),
    (by decide : (0 : ℕ) < 6), (by decide : (5 : ℕ) < 6), (by decide : (0 : ℕ) ≠ 5),
    by norm_num [bridgeTruss, n_nodes, List.forall_mem_cons]⟩

theorem bridge_valence {K : Type} [Field K] : ValenceOK (bridgeTruss K) :=
  (by decide :
    ∀ i < 6,
      (incL [(0, 1), (0, 2), (1, 2), (1, 3), (2, 3), (2, 4), (3, 4), (3, 5), (4, 5)]
        i).length ≤ 6)

theorem bridge_inc {K : Type} [Field K] :
    incidentMembers (bridgeTruss K) 0 = [0, 1]
      ∧ incidentMembers (bridgeTruss K) 1 = [0, 2, 3]
      ∧ incidentMembers (bridgeTruss K) 2 = [1, 2, 4, 5]
      ∧ incidentMembers (bridgeTruss K) 3 = [3, 4, 6, 7]
      ∧ incidentMembers (bridgeTruss K) 4 = [5, 6, 8]
      ∧ incidentMembers (bridgeTruss K) 5 = [7, 8] := by
  have hbl : ∀ i k : ℕ, ∀ L : List ℕ,
      incL [(0, 1), (0, 2), (1, 2), (1, 3), (2, 3), (2, 4), (3, 4), (3, 5), (4, 5)] i = L →
      incidentMembers (bridgeTruss K) i = L := fun i k L h => h
  exact ⟨hbl 0 0 _ (by decide), hbl 1 0 _ (by decide), hbl 2 0 _ (by decide),
    hbl 3 0 _ (by decide), hbl 4 0 _ (by decide), hbl 5 0 _ (by decide)⟩

theorem bridge_dirs {K : Type} [LinearOrderedField K] :
    memberDir (bridgeTruss K) 0 0 = (0, 1)
      ∧ memberDir (bridgeTruss K) 1 0 = (1, 2)
      ∧ memberDir (bridgeTruss K) 0 1 = (0, -1)
      ∧ memberDir (bridgeTruss K) 2 1 = (1, 1)
      ∧ memberDir (bridgeTruss K) 3 1 = (2, 1)
      ∧ memberDir (bridgeTruss K) 1 2 = (-1, -2)
      ∧ memberDir (bridgeTruss K) 2 2 = (-1, -1)
      ∧ memberDir (bridgeTruss K) 4 2 = (1, 0)
      ∧ memberDir (bridgeTruss K) 5 2 = (2, -1)
      ∧ memberDir (bridgeTruss K) 3 3 = (-2, -1)
      ∧ memberDir (bridgeTruss K) 4 3 = (-1, 0)
      ∧ memberDir (bridgeTruss K) 6 3 = (1, -1)
      ∧ memberDir (bridgeTruss K) 7 3 = (1, -2)
      ∧ memberDir (bridgeTruss K) 5 4 = (-2, 1)
      ∧ memberDir (bridgeTruss K) 6 4 = (-1, 1)
      ∧ memberDir (bridgeTruss K) 8 4 = (0, -1)
      ∧ memberDir (bridgeTruss K) 7 5 = (-1, 2)
      ∧ memberDir (bridgeTruss K) 8 5 = (0, 1) := by
  refine ⟨?_, ?_, ?_, ?_, ?_, ?_, ?_, ?_, ?_, ?_, ?_, ?_, ?_, ?_, ?_, ?_, ?_, ?_⟩ <;>
    norm_num [memberDir, memberNodes, bridgeTruss, List.getD_cons_zero,
      List.getD_cons_succ, Prod.ext_iff]

theorem bridge_entries {K : Type} [LinearOrderedField K] (len : ℕ → K) :
    ∀ r < 12, ∀ j < 12,
      assembleA (bridgeTruss K) len r j
        = (((bridgeRows.getD r []).getD j 0 : ℤ) : K) * (if j < 9 then (len j)⁻¹ else 1) := by
  obtain ⟨hI0, hI1, hI2, hI3, hI4, hI5⟩ := bridge_inc (K := K)
  obtain ⟨d0_0, d1_0, d0_1, d2_1, d3_1, d1_2, d2_2, d4_2, d5_2, d3_3, d4_3, d6_3, d7_3,
    d5_4, d6_4, d8_4, d7_5, d8_5⟩ := bridge_dirs (K := K)
  have hbf : (bridgeTruss K).BC_fixed = 0 := rfl
  have hbr : (bridgeTruss K).BC_roller = 5 := rfl
  have hnm : n_members (bridgeTruss K) = 9 := rfl
  intro r hr j hj
  obtain ⟨ii, hii, hcase⟩ : ∃ ii, ii < 6 ∧ (r = 2 * ii ∨ r = 2 * ii + 1) :=
    ⟨r / 2, by omega, by omega⟩
  rcases hcase with rfl | rfl
  · rw [assembleA_even (bridgeTruss K) len bridge_valid bridge_valence ii hii j,
      hbf, hnm]
    interval_cases ii <;> interval_cases j <;>
      norm_num [hI0, hI1, hI2, hI3, hI4, hI5, d0_0, d1_0, d0_1, d2_1, d3_1, d1_2,
        d2_2, d4_2, d5_2, d3_3, d4_3, d6_3, d7_3, d5_4, d6_4, d8_4, d7_5, d8_5,
        bridgeRows, List.getD_cons_zero, List.getD_cons_succ, div_eq_mul_inv]
  · rw [assembleA_odd (bridgeTruss K) len bridge_valid bridge_valence ii hii j,
      hbf, hbr, hnm]
    interval_cases ii <;> interval_cases j <;>
      norm_num [hI0, hI1, hI2, hI3, hI4, hI5, d0_0, d1_0, d0_1, d2_1, d3_1, d1_2,
        d2_2, d4_2, d5_2, d3_3, d4_3, d6_3, d7_3, d5_4, d6_4, d8_4, d7_5, d8_5,
        bridgeRows, List.getD_cons_zero, List.getD_cons_succ, div_eq_mul_inv]

theorem bridge_rhs_entries {K : Type} [LinearOrderedField K] :
    ∀ r < 12, assembleb (bridgeTruss K) r = ((bridgeRhsL.getD r 0 : ℤ) : K) := by
  have hlds : (bridgeTruss K).loads = [(1, 0, -1), (2, 0, -2), (3, 0, -2), (4, 0, -1)] := rfl
  intro r hr
  obtain ⟨ii, hii, hcase⟩ : ∃ ii, ii < 6 ∧ (r = 2 * ii ∨ r = 2 * ii + 1) :=
    ⟨r / 2, by omega, by omega⟩
  rcases hcase with rfl | rfl
  · rw [assembleb_even_eq, hlds]
    interval_cases ii <;>
      norm_num [bridgeRhsL, List.filter_cons, List.filter_nil,
        List.getD_cons_zero, List.getD_cons_succ]
  · rw [assembleb_odd_eq, hlds]
    interval_cases ii <;>
      norm_num [bridgeRhsL, List.filter_cons, List.filter_nil,
        List.getD_cons_zero, List.getD_cons_succ]

theorem bridge_no_degenerate {K : Type} [LinearOrderedField K] [DecidableEq K] :
    hasDegenerateMember (bridgeTruss K) = false := by
  rw [← Bool.not_eq_true, hasDegenerateMember, List.any_eq_true]
  rintro ⟨ab, hab, hco⟩
  rw [decide_eq_true_eq] at hco
  have hm : (bridgeTruss K).members
      = [(0, 1), (0, 2), (1, 2), (1, 3), (2, 3), (2, 4), (3, 4), (3, 5), (4, 5)] := rfl
  rw [hm] at hab
  simp only [List.mem_cons, List.not_mem_nil, or_false] at hab
  rcases hab with rfl | rfl | rfl | rfl | rfl | rfl | rfl | rfl | rfl <;>
    (revert hco
     norm_num [bridgeTruss, List.getD_cons_zero, List.getD_cons_succ, Prod.ext_iff])

/-- Claim C5: for the notebook's concrete 6-node, 9-member bridge truss
(fixed support at node 0, roller at node 5, four downward loads), the
determinacy check passes (`2*6 = 9+3`), the solve succeeds, the horizontal
reaction at node 0 is `0` and the two vertical reactions sum to `6`.  The
member lengths are a parameter `len`; any nonzero lengths (in particular
the true lengths `1, √5, √2, …`, see the witness) give the same reactions
because the length scaling only rescales the member columns. -/
theorem bridge_solution {K : Type} [LinearOrderedField K] [DecidableEq K]
    (len : ℕ → K) (hlen : ∀ m < 9, len m ≠ 0) :
    checkDeterminacy (n_nodes (bridgeTruss K)) (n_members (bridgeTruss K)) = .Determinate
      ∧ ∃ x : Fin 12 → K,
          runTruss (bridgeTruss K) len = .ok x ∧ x 9 = 0 ∧ x 10 + x 11 = 6 := by
  have castSum : ∀ (v w : Fin 12 → ℤ),
      (∑ k : Fin 12, ((v k : ℤ) : K) * ((w k : ℤ) : K)) = ((∑ k : Fin 12, v k * w k : ℤ) : K) := by
    intro v w
    rw [Int.cast_sum]
    exact Finset.sum_congr rfl fun k _ => (Int.cast_mul _ _).symm
  set AM : Matrix (Fin 12) (Fin 12) K := toMat 12 12 (assembleA (bridgeTruss K) len) with hAMdef
  set bv : Fin 12 → K := toVec 12 (assembleb (bridgeTruss K)) with hbvdef
  set BK : Matrix (Fin 12) (Fin 12) K := bridgeB.map (fun z : ℤ => (z : K)) with hBKdef
  set dv : Fin 12 → K := fun j => if j.val < 9 then (len j.val)⁻¹ else 1 with hdvdef
  set xK : Fin 12 → K :=
    fun j => if j.val < 9 then len j.val * ((bridgeY j : ℤ) : K) else ((bridgeY j : ℤ) : K)
    with hxKdef
  have hAM : ∀ i j : Fin 12, AM i j = BK i j * dv j := by
    intro i j
    have h1 := bridge_entries len i.val i.isLt j.val j.isLt
    have h2 := bridgeB_eq_rows i j
    rw [hAMdef, hBKdef, hdvdef]
    show assembleA (bridgeTruss K) len i.val j.val = ((bridgeB i j : ℤ) : K) * _
    rw [h1, h2]
  have hfact : AM = BK * Matrix.diagonal dv := by
    ext i j
    rw [Matrix.mul_diagonal]
    exact hAM i j
  have hBC : BK * (bridgeC.map (fun z : ℤ => (z : K))) = (3 : K) • 1 := by
    ext i j
    rw [Matrix.mul_apply]
    simp only [hBKdef, Matrix.map_apply]
    rw [castSum (fun k => bridgeB i k) (fun k => bridgeC k j), ← Matrix.mul_apply,
      bridgeC_mul]
    simp only [Matrix.smul_apply, Matrix.one_apply, smul_eq_mul]
    split <;> norm_num
  have h3 : (3 : K) ≠ 0 := by norm_num
  have hright : BK * ((3 : K)⁻¹ • bridgeC.map (fun z : ℤ => (z : K))) = 1 := by
    rw [Matrix.mul_smul, hBC, smul_smul, inv_mul_cancel₀ h3, one_smul]
  have hinvB : Invertible BK := Matrix.invertibleOfRightInverse _ _ hright
  have hdetB : BK.det ≠ 0 := by
    haveI := hinvB
    exact isUnit_iff_ne_zero.1 ((Matrix.isUnit_iff_isUnit_det _).1 (isUnit_of_invertible _))
  have hdetD : (Matrix.diagonal dv).det ≠ 0 := by
    rw [Matrix.det_diagonal]
    apply Finset.prod_ne_zero_iff.2
    intro j _
    simp only [hdvdef]
    by_cases hj : j.val < 9
    · rw [if_pos hj]
      exact inv_ne_zero (hlen j.val hj)
    · rw [if_neg hj]
      norm_num
  have hdetA : AM.det ≠ 0 := by
    rw [hfact, Matrix.det_mul]
    exact mul_ne_zero hdetB hdetD
  haveI hinvA : Invertible AM := Matrix.invertibleOfIsUnitDet _ (isUnit_iff_ne_zero.2 hdetA)
  have hbv : bv = fun i : Fin 12 => ((bridgeRhs i : ℤ) : K) := by
    funext i
    rw [hbvdef]
    show assembleb (bridgeTruss K) i.val = _
    rw [bridge_rhs_entries i.val i.isLt, bridgeRhs_eq_list i]
  have hmul : AM.mulVec xK = bv := by
    funext r
    show ∑ j : Fin 12, AM r j * xK j = bv r
    have hterm : ∀ j : Fin 12, AM r j * xK j = BK r j * ((bridgeY j : ℤ) : K) := by
      intro j
      rw [hAM r j]
      simp only [hdvdef, hxKdef]
      by_cases hj : j.val < 9
      · simp only [if_pos hj]
        rw [mul_assoc, ← mul_assoc ((len j.val)⁻¹), inv_mul_cancel₀ (hlen j.val hj),
          one_mul]
      · simp only [if_neg hj]
        ring
    rw [Finset.sum_congr rfl fun j _ => hterm j]
    simp only [hBKdef, Matrix.map_apply]
    rw [castSum (fun k => bridgeB r k) bridgeY]
    have hrowY : (∑ k : Fin 12, bridgeB r k * bridgeY k) = bridgeRhs r := by
      have h := congrFun bridgeY_solves r
      simpa [Matrix.mulVec, Matrix.dotProduct] using h
    rw [hrowY, hbv]
  have hinj : Function.Injective AM.mulVec := by
    intro u w h
    have h2 := congrArg (fun z => (⅟AM).mulVec z) h
    simpa [Matrix.mulVec_mulVec, invOf_mul_self, Matrix.one_mulVec] using h2
  have hsolve : solve 12 12 AM bv = .ok xK := by
    rw [solve_eq_square, if_neg hdetA]
    have hA1 : AM.mulVec (AM.det⁻¹ • AM.adjugate.mulVec bv) = bv := by
      rw [Matrix.mulVec_smul, Matrix.mulVec_mulVec, Matrix.mul_adjugate,
        Matrix.smul_mulVec_assoc, Matrix.one_mulVec, smul_smul,
        inv_mul_cancel₀ hdetA, one_smul]
    rw [hinj (hA1.trans hmul.symm)]
  have hdet : checkDeterminacy (n_nodes (bridgeTruss K)) (n_members (bridgeTruss K))
      = Determinacy.Determinate := rfl
  have hac : assembleChecked (bridgeTruss K) len
      = .ok (assembleA (bridgeTruss K) len, assembleb (bridgeTruss K)) := by
    rw [assembleChecked, bridge_no_degenerate]
    rfl
  have hrun : runTruss (bridgeTruss K) len = .ok xK := by
    rw [runTruss, hdet, hac]
    exact hsolve
  have hY : bridgeY 9 = 0 ∧ bridgeY 10 = 3 ∧ bridgeY 11 = 3 := by decide
  refine ⟨hdet, xK, hrun, ?_, ?_⟩
  · rw [hxKdef]
    show (if ((9 : Fin 12) : ℕ) < 9 then _ else ((bridgeY 9 : ℤ) : K)) = 0
    rw [if_neg (by decide), hY.1]
    norm_num
  · rw [hxKdef]
    show (if ((10 : Fin 12) : ℕ) < 9 then _ else ((bridgeY 10 : ℤ) : K))
        + (if ((11 : Fin 12) : ℕ) < 9 then _ else ((bridgeY 11 : ℤ) : K)) = 6
    rw [if_neg (by decide), if_neg (by decide), hY.2.1, hY.2.2]
    norm_num

/-- Witness for C5 over the real numbers, with the true member lengths
`[1, √5, √2, √5, 1, √5, √2, √5, 1]`. -/
theorem bridge_solution_witness :
    checkDeterminacy (n_nodes (bridgeTruss ℝ)) (n_members (bridgeTruss ℝ)) = .Determinate
      ∧ ∃ x : Fin 12 → ℝ,
          runTruss (bridgeTruss ℝ)
              (fun m => Real.sqrt (([1, 5, 2, 5, 1, 5, 2, 5, 1] : List ℝ).getD m 1))
            = .ok x ∧ x 9 = 0 ∧ x 10 + x 11 = 6 := by
  refine bridge_solution (K := ℝ)
    (fun m => Real.sqrt (([1, 5, 2, 5, 1, 5, 2, 5, 1] : List ℝ).getD m 1)) ?_
  intro m hm
  have h1 : (0 : ℝ) < ([1, 5, 2, 5, 1, 5, 2, 5, 1] : List ℝ).getD m 1 := by
    interval_cases m <;> norm_num [List.getD_cons_zero, List.getD_cons_succ]
  exact (Real.sqrt_pos.2 h1).ne'

end TrussSolver
